import Mathlib

/-!
Verification of the TMDb → Supabase ingestion script (`fetch_tmdb.py`).

The development shallowly embeds the script's pure logic:
* a small JSON value model and the `extract_data` normalizer,
* the `safe_request` retry/backoff loop (responses supplied by an oracle),
* the `safe_upsert` batch chunking loop,
* the `main` traversal / checkpoint / quota state machine
  (network responses supplied by an environment, fuel bounds the
  unbounded `while True` page loop).
-/

namespace TmdbFetch

/-! ## JSON value model -/

/-- JSON values as delivered by the TMDb API and consumed by `extract_data`. -/
inductive JVal where
  | null
  | jbool (b : Bool)
  | jnum (n : Int)
  | jstr (s : String)
  | jarr (xs : List JVal)
  | jobj (kvs : List (String × JVal))

/-- First value bound to key `k` in an association list (Python dict lookup). -/
def jlookup (kvs : List (String × JVal)) (k : String) : Option JVal :=
  match kvs with
  | [] => none
  | (k', v) :: rest => if k' = k then some v else jlookup rest k

/-- Python truthiness of a JSON value (`if not movie`, `if movie.get(...)`). -/
def pyTruthy : JVal → Bool
  | .null => false
  | .jbool b => b
  | .jnum n => n != 0
  | .jstr s => s != ""
  | .jarr xs => !xs.isEmpty
  | .jobj kvs => !kvs.isEmpty

/-- Python `d.get(k, default)`: raises (error) unless the receiver is a dict. -/
def pyGetD (v : JVal) (k : String) (d : JVal) : Except String JVal :=
  match v with
  | .jobj kvs => .ok ((jlookup kvs k).getD d)
  | _ => .error ("AttributeError: get " ++ k)

/-- Python `d[k]` subscription: raises `KeyError` when the key is absent,
`TypeError` when the receiver is not a dict. -/
def pySubscr (v : JVal) (k : String) : Except String JVal :=
  match v with
  | .jobj kvs =>
    match jlookup kvs k with
    | some x => .ok x
    | none => .error ("KeyError: " ++ k)
  | _ => .error ("TypeError: subscript " ++ k)

/-- Iterating a payload collection. The script only ever iterates JSON
arrays; a non-array value raises. (Python would also iterate strings and
dict keys, shapes the TMDb payload never uses for these fields and on
which the loop bodies would raise anyway.) -/
def pyArr (v : JVal) : Except String (List JVal) :=
  match v with
  | .jarr xs => .ok xs
  | _ => .error "TypeError: not iterable"

/-- Python `v == "s"`: true only for the equal string. -/
def jeqStr (v : JVal) (s : String) : Bool :=
  match v with
  | .jstr t => t == s
  | _ => false

/-- Python `str(v)` as interpolated into the script's f-strings. Only
string keys/paths occur in real payloads; other cases are best effort. -/
def pyStr : JVal → String
  | .jstr s => s
  | .jnum n => toString n
  | .null => "None"
  | .jbool true => "True"
  | .jbool false => "False"
  | .jarr _ => "[...]"
  | .jobj _ => "\x7b...\x7d"

/-! ## `extract_data` (fetch_tmdb.py lines 109-136) -/

/-- The normalized record built by `extract_data`. -/
structure MovieRecord where
  tmdb_id : JVal
  imdb_id : JVal
  title : JVal
  plot : JVal
  year : Option String
  length : JVal
  poster : Option String
  cast : List JVal
  genres : List JVal
  trailer : Option String
  tags : List JVal
  awards : JVal
  language : JVal

/-- A list comprehension `[f(x) for x in xs]`: left to right, the first
raised exception propagates. -/
def mapE (f : JVal → Except String JVal) : List JVal → Except String (List JVal)
  | [] => .ok []
  | x :: xs => do
    let y ← f x
    let ys ← mapE f xs
    pure (y :: ys)

/-- `[c["name"] for c in movie.get("credits", {}).get("cast", [])[:5]]`. -/
def castE (movie : JVal) : Except String (List JVal) := do
  let credits ← pyGetD movie "credits" (.jobj [])
  let castJ ← pyGetD credits "cast" (.jarr [])
  let xs ← pyArr castJ
  mapE (fun c => pySubscr c "name") (xs.take 5)

/-- `[g["name"] for g in movie.get("genres", [])]`. -/
def genresE (movie : JVal) : Except String (List JVal) := do
  let g ← pyGetD movie "genres" (.jarr [])
  let xs ← pyArr g
  mapE (fun c => pySubscr c "name") xs

/-- The trailer search loop: first entry whose type is "Trailer" and whose
site is "YouTube"; returns its "key". Later entries are not examined. -/
def findTrailer : List JVal → Except String (Option JVal)
  | [] => .ok none
  | v :: rest => do
    let t ← pySubscr v "type"
    if jeqStr t "Trailer" then do
      let s ← pySubscr v "site"
      if jeqStr s "YouTube" then do
        let k ← pySubscr v "key"
        pure (some k)
      else findTrailer rest
    else findTrailer rest

/-- `movie.get("videos", {}).get("results", [])` fed to the trailer loop. -/
def videosE (movie : JVal) : Except String (Option JVal) := do
  let v ← pyGetD movie "videos" (.jobj [])
  let rJ ← pyGetD v "results" (.jarr [])
  let xs ← pyArr rJ
  findTrailer xs

/-- `[k["name"] for k in movie.get("keywords", {}).get("keywords", [])]`. -/
def tagsE (movie : JVal) : Except String (List JVal) := do
  let k ← pyGetD movie "keywords" (.jobj [])
  let kJ ← pyGetD k "keywords" (.jarr [])
  let xs ← pyArr kJ
  mapE (fun c => pySubscr c "name") xs

/-- Python `s.split("-")[0]`: the prefix of `s` before the first `'-'`
(the whole string when no dash occurs). -/
def upToDash (s : String) : String :=
  String.mk (s.data.takeWhile (fun c => c != '-'))

/-- `movie.get("release_date", "").split("-")[0] if movie.get("release_date") else None`. -/
def yearE (movie : JVal) : Except String (Option String) := do
  let rd ← pyGetD movie "release_date" .null
  if pyTruthy rd then
    match rd with
    | .jstr s => pure (some (upToDash s))
    | _ => .error "AttributeError: split"
  else
    pure none

/-- Poster URL: f-string over `poster_path` when truthy, else None. -/
def posterE (movie : JVal) : Except String (Option String) := do
  let p ← pyGetD movie "poster_path" .null
  pure (if pyTruthy p then some ("https://image.tmdb.org/t/p/w500" ++ pyStr p) else none)

/-- `extract_data` (fetch_tmdb.py lines 109-136). An `Except.error` result
models a raised Python exception; `.ok none` is the early `return None`
for a falsy argument. -/
def extract_data (movie : JVal) : Except String (Option MovieRecord) :=
  if !pyTruthy movie then .ok none
  else do
    let cast ← castE movie
    let genres ← genresE movie
    let trailer ← videosE movie
    let tmdbId ← pyGetD movie "id" .null
    let extIds ← pyGetD movie "external_ids" (.jobj [])
    let imdbId ← pyGetD extIds "imdb_id" .null
    let title ← pyGetD movie "title" .null
    let plot ← pyGetD movie "overview" .null
    let year ← yearE movie
    let len ← pyGetD movie "runtime" .null
    let poster ← posterE movie
    let tags ← tagsE movie
    let lang ← pyGetD movie "original_language" .null
    .ok (some
      { tmdb_id := tmdbId
        imdb_id := imdbId
        title := title
        plot := plot
        year := year
        length := len
        poster := poster
        cast := cast
        genres := genres
        trailer := trailer.map (fun k => "https://www.youtube.com/watch?v=" ++ pyStr k)
        tags := tags
        awards := .null
        language := lang })

/-! ## Total companions and well-shapedness

`extract_data` indexes nested entries directly (`c["name"]`, `v["type"]`,
...), so it can raise. `goodShape` captures exactly the shapes on which
every such access succeeds, and `mkRecord` is a total function agreeing
with `extract_data` on those shapes. -/

/-- Total dict lookup with default; on non-dicts it just yields the default. -/
def jgetD (v : JVal) (k : String) (d : JVal) : JVal :=
  match v with
  | .jobj kvs => (jlookup kvs k).getD d
  | _ => d

/-- Total `c[field]` for the nested-entry accesses: null when absent. -/
def jget1 (field : String) (c : JVal) : JVal :=
  match c with
  | .jobj kvs => (jlookup kvs field).getD .null
  | _ => .null

/-- The nested entry is a dict carrying `field`. -/
def entryHas (field : String) (c : JVal) : Bool :=
  match c with
  | .jobj kvs => (jlookup kvs field).isSome
  | _ => false

/-- The collection is an array whose entries all carry `field`. -/
def entriesOk (field : String) (v : JVal) : Bool :=
  match v with
  | .jarr xs => xs.all (entryHas field)
  | _ => false

/-- Sub-fields needed by the trailer loop, accounting for its
short-circuiting: `site` is only read on type "Trailer", `key` only on a
YouTube trailer, and entries after the first match are never read. -/
def goodVideos : List JVal → Bool
  | [] => true
  | v :: rest =>
    match v with
    | .jobj kvs =>
      match jlookup kvs "type" with
      | none => false
      | some t =>
        if jeqStr t "Trailer" then
          match jlookup kvs "site" with
          | none => false
          | some s =>
            if jeqStr s "YouTube" then (jlookup kvs "key").isSome
            else goodVideos rest
        else goodVideos rest
    | _ => false

/-- Cast access pattern: only the first five entries are indexed. -/
def castOk (movie : JVal) : Bool :=
  match jgetD movie "credits" (.jobj []) with
  | .jobj ckvs =>
    match (jlookup ckvs "cast").getD (.jarr []) with
    | .jarr xs => (xs.take 5).all (entryHas "name")
    | _ => false
  | _ => false

def genresOk (movie : JVal) : Bool :=
  entriesOk "name" (jgetD movie "genres" (.jarr []))

def videosOk (movie : JVal) : Bool :=
  match jgetD movie "videos" (.jobj []) with
  | .jobj vkvs =>
    match (jlookup vkvs "results").getD (.jarr []) with
    | .jarr xs => goodVideos xs
    | _ => false
  | _ => false

def tagsOk (movie : JVal) : Bool :=
  match jgetD movie "keywords" (.jobj []) with
  | .jobj kkvs => entriesOk "name" ((jlookup kkvs "keywords").getD (.jarr []))
  | _ => false

/-- `release_date` must be a string or falsy, or `.split` raises. -/
def releaseOk (movie : JVal) : Bool :=
  match jgetD movie "release_date" .null with
  | .jstr _ => true
  | v => !pyTruthy v

/-- `external_ids`, when present, must be a dict or `.get` raises. -/
def extIdsOk (movie : JVal) : Bool :=
  match jgetD movie "external_ids" (.jobj []) with
  | .jobj _ => true
  | _ => false

/-- Shapes on which every access in `extract_data` succeeds. -/
def goodShape (movie : JVal) : Bool :=
  match movie with
  | .jobj _ => castOk movie && genresOk movie && videosOk movie
      && tagsOk movie && releaseOk movie && extIdsOk movie
  | _ => false

/-- Total value of the cast component. -/
def castVal (movie : JVal) : List JVal :=
  match jgetD movie "credits" (.jobj []) with
  | .jobj ckvs =>
    match (jlookup ckvs "cast").getD (.jarr []) with
    | .jarr xs => (xs.take 5).map (jget1 "name")
    | _ => []
  | _ => []

def genresVal (movie : JVal) : List JVal :=
  match jgetD movie "genres" (.jarr []) with
  | .jarr xs => xs.map (jget1 "name")
  | _ => []

/-- Total mirror of `findTrailer`. -/
def trailerVal : List JVal → Option JVal
  | [] => none
  | v :: rest =>
    match v with
    | .jobj kvs =>
      match jlookup kvs "type" with
      | none => none
      | some t =>
        if jeqStr t "Trailer" then
          match jlookup kvs "site" with
          | none => none
          | some s =>
            if jeqStr s "YouTube" then jlookup kvs "key"
            else trailerVal rest
        else trailerVal rest
    | _ => none

def videosVal (movie : JVal) : Option JVal :=
  match jgetD movie "videos" (.jobj []) with
  | .jobj vkvs =>
    match (jlookup vkvs "results").getD (.jarr []) with
    | .jarr xs => trailerVal xs
    | _ => none
  | _ => none

def tagsVal (movie : JVal) : List JVal :=
  match jgetD movie "keywords" (.jobj []) with
  | .jobj kkvs =>
    match (jlookup kkvs "keywords").getD (.jarr []) with
    | .jarr xs => xs.map (jget1 "name")
    | _ => []
  | _ => []

def yearVal (movie : JVal) : Option String :=
  match jgetD movie "release_date" .null with
  | .jstr s => if s != "" then some (upToDash s) else none
  | _ => none

def posterVal (movie : JVal) : Option String :=
  let p := jgetD movie "poster_path" .null
  if pyTruthy p then some ("https://image.tmdb.org/t/p/w500" ++ pyStr p) else none

/-- Total companion of `extract_data`'s record construction. -/
def mkRecord (movie : JVal) : MovieRecord where
  tmdb_id := jgetD movie "id" .null
  imdb_id := jgetD (jgetD movie "external_ids" (.jobj [])) "imdb_id" .null
  title := jgetD movie "title" .null
  plot := jgetD movie "overview" .null
  year := yearVal movie
  length := jgetD movie "runtime" .null
  poster := posterVal movie
  cast := castVal movie
  genres := genresVal movie
  trailer := (videosVal movie).map (fun k => "https://www.youtube.com/watch?v=" ++ pyStr k)
  tags := tagsVal movie
  awards := .null
  language := jgetD movie "original_language" .null

/-! ## `extract_data` agrees with `mkRecord` on good shapes -/

theorem exbind_ok {ε α β : Type} (a : α) (f : α → Except ε β) :
    (Except.ok a : Except ε α) >>= f = f a := rfl

theorem expure {ε α : Type} (a : α) :
    (pure a : Except ε α) = .ok a := rfl

theorem pyGetD_obj (kvs : List (String × JVal)) (k : String) (d : JVal) :
    pyGetD (.jobj kvs) k d = .ok (jgetD (.jobj kvs) k d) := rfl

theorem mapE_subscr_ok (field : String) :
    ∀ xs : List JVal, xs.all (entryHas field) = true →
      mapE (fun c => pySubscr c field) xs = .ok (xs.map (jget1 field)) := by
  intro xs h
  induction xs with
  | nil => rfl
  | cons c rest ih =>
    simp only [List.all_cons, Bool.and_eq_true] at h
    obtain ⟨h1, h2⟩ := h
    cases c with
    | jobj kvs =>
      cases hl : jlookup kvs field with
      | none => simp [entryHas, hl] at h1
      | some v =>
        have hp : pySubscr (.jobj kvs) field = .ok v := by simp [pySubscr, hl]
        simp only [mapE, hp, exbind_ok, ih h2, expure, List.map_cons, jget1, hl,
          Option.getD_some]
    | null => simp [entryHas] at h1
    | jbool b => simp [entryHas] at h1
    | jnum n => simp [entryHas] at h1
    | jstr s => simp [entryHas] at h1
    | jarr xs => simp [entryHas] at h1

theorem findTrailer_ok :
    ∀ xs : List JVal, goodVideos xs = true →
      findTrailer xs = .ok (trailerVal xs) := by
  intro xs h
  induction xs with
  | nil => rfl
  | cons v rest ih =>
    cases v with
    | jobj kvs =>
      simp only [goodVideos] at h
      simp only [findTrailer, trailerVal]
      split at h
      next heq => exact absurd h (by simp)
      next t heq =>
        simp only [pySubscr, heq, exbind_ok]
        split at h
        · rename_i htr
          simp only [if_pos htr]
          split at h
          next heq2 => exact absurd h (by simp)
          next s heq2 =>
            simp only [heq2, exbind_ok]
            split at h
            · rename_i hyt
              simp only [if_pos hyt]
              cases hk : jlookup kvs "key" with
              | none => rw [hk] at h; simp at h
              | some k => simp only [hk, exbind_ok, expure]
            · rename_i hyt
              simp only [if_neg hyt]
              exact ih h
        · rename_i htr
          simp only [if_neg htr]
          exact ih h
    | null => simp only [goodVideos] at h; cases h
    | jbool b => simp only [goodVideos] at h; cases h
    | jnum n => simp only [goodVideos] at h; cases h
    | jstr s => simp only [goodVideos] at h; cases h
    | jarr xs => simp only [goodVideos] at h; cases h

theorem castE_ok (kvs : List (String × JVal)) (h : castOk (.jobj kvs) = true) :
    castE (.jobj kvs) = .ok (castVal (.jobj kvs)) := by
  simp only [castOk] at h
  simp only [castE, castVal, pyGetD_obj, exbind_ok]
  split at h
  next ckvs heq =>
    simp only [jgetD] at heq ⊢
    rw [heq]
    simp only [pyGetD_obj, exbind_ok, jgetD]
    split at h
    next xs heq2 =>
      rw [heq2]
      simp only [pyArr, exbind_ok]
      exact mapE_subscr_ok "name" (xs.take 5) h
    next => exact absurd h (by simp)
  next => exact absurd h (by simp)

theorem genresE_ok (kvs : List (String × JVal)) (h : genresOk (.jobj kvs) = true) :
    genresE (.jobj kvs) = .ok (genresVal (.jobj kvs)) := by
  simp only [genresOk, entriesOk] at h
  simp only [genresE, genresVal, pyGetD_obj, exbind_ok]
  split at h
  next xs heq =>
    simp only [jgetD] at heq ⊢
    rw [heq]
    simp only [pyArr, exbind_ok]
    exact mapE_subscr_ok "name" xs h
  next => exact absurd h (by simp)

theorem videosE_ok (kvs : List (String × JVal)) (h : videosOk (.jobj kvs) = true) :
    videosE (.jobj kvs) = .ok (videosVal (.jobj kvs)) := by
  simp only [videosOk] at h
  simp only [videosE, videosVal, pyGetD_obj, exbind_ok]
  split at h
  next vkvs heq =>
    simp only [jgetD] at heq ⊢
    rw [heq]
    simp only [pyGetD_obj, exbind_ok, jgetD]
    split at h
    next xs heq2 =>
      rw [heq2]
      simp only [pyArr, exbind_ok]
      exact findTrailer_ok xs h
    next => exact absurd h (by simp)
  next => exact absurd h (by simp)

theorem tagsE_ok (kvs : List (String × JVal)) (h : tagsOk (.jobj kvs) = true) :
    tagsE (.jobj kvs) = .ok (tagsVal (.jobj kvs)) := by
  simp only [tagsOk, entriesOk] at h
  simp only [tagsE, tagsVal, pyGetD_obj, exbind_ok]
  split at h
  next kkvs heq =>
    simp only [jgetD] at heq ⊢
    rw [heq]
    simp only [pyGetD_obj, exbind_ok, jgetD]
    split at h
    next xs heq2 =>
      rw [heq2]
      simp only [pyArr, exbind_ok]
      exact mapE_subscr_ok "name" xs h
    next => exact absurd h (by simp)
  next => exact absurd h (by simp)

theorem yearE_ok (kvs : List (String × JVal)) (h : releaseOk (.jobj kvs) = true) :
    yearE (.jobj kvs) = .ok (yearVal (.jobj kvs)) := by
  simp only [releaseOk] at h
  simp only [yearE, yearVal, pyGetD_obj, exbind_ok]
  cases hr : jgetD (.jobj kvs) "release_date" .null with
  | jstr s =>
    by_cases hs : s = ""
    · subst hs; simp [pyTruthy, expure]
    · simp [pyTruthy, hs, expure]
  | null => simp [pyTruthy, expure]
  | jbool b =>
    rw [hr] at h
    simp only [Bool.not_eq_true'] at h
    simp [h, expure]
  | jnum n =>
    rw [hr] at h
    simp only [Bool.not_eq_true'] at h
    simp [h, expure]
  | jarr xs =>
    rw [hr] at h
    simp only [Bool.not_eq_true'] at h
    simp [h, expure]
  | jobj o =>
    rw [hr] at h
    simp only [Bool.not_eq_true'] at h
    simp [h, expure]

theorem posterE_obj (kvs : List (String × JVal)) :
    posterE (.jobj kvs) = .ok (posterVal (.jobj kvs)) := rfl

/-- On every good shape, `extract_data` returns normally and produces
exactly `mkRecord` (or `none` for a falsy argument). -/
theorem extract_data_eq (movie : JVal) (h : goodShape movie = true) :
    extract_data movie = .ok (if pyTruthy movie then some (mkRecord movie) else none) := by
  cases movie with
  | jobj kvs =>
    simp only [goodShape, Bool.and_eq_true] at h
    obtain ⟨⟨⟨⟨⟨hc, hg⟩, hv⟩, ht⟩, hr⟩, he⟩ := h
    by_cases htr : pyTruthy (.jobj kvs) = true
    · rw [if_pos htr]
      simp only [extIdsOk] at he
      split at he
      next o heq =>
        simp only [jgetD] at heq
        simp only [extract_data, htr, Bool.not_true, Bool.false_eq_true, if_false,
          castE_ok kvs hc, genresE_ok kvs hg, videosE_ok kvs hv, tagsE_ok kvs ht,
          yearE_ok kvs hr, posterE_obj kvs, exbind_ok, pyGetD_obj, jgetD, heq,
          mkRecord, expure]
      next => exact absurd he (by simp)
    · rw [if_neg htr]
      simp only [Bool.not_eq_true] at htr
      simp only [extract_data, htr, Bool.not_false, if_true]
  | null => simp [goodShape] at h
  | jbool b => simp [goodShape] at h
  | jnum n => simp [goodShape] at h
  | jstr s => simp [goodShape] at h
  | jarr xs => simp [goodShape] at h

/-! ## Claims C3 and C9 -/

/-- A raw detail payload whose single cast entry lacks the "name"
sub-field (all other fields well-formed). -/
def badMovie : JVal :=
  .jobj [("id", .jnum 1),
         ("credits", .jobj [("cast", .jarr [.jobj [("order", .jnum 0)]])])]

/-- C3, counterexample: `extract_data` is *not* total over every RawDetail
dictionary shape — a cast entry without a "name" sub-field raises
`KeyError` (the code indexes `c["name"]` directly) instead of mapping the
missing field to null. -/
theorem C3_extract_raises_on_missing_cast_name :
    extract_data badMovie = .error "KeyError: name" := by rfl

/-- C3, amended: `extract_data` never raises on inputs whose nested
entries (cast, genres, videos, keywords) carry the sub-fields the code
indexes, with `release_date` a string or falsy and `external_ids` a dict
when present (`goodShape`); on those inputs missing top-level fields map
to null/absent in the output record. A nested entry lacking a required
sub-field raises. -/
theorem C3_extract_total_on_good_shapes (movie : JVal) (kvs : List (String × JVal))
    (hm : movie = .jobj kvs) (h : goodShape movie = true) :
    extract_data movie = .ok (if pyTruthy movie then some (mkRecord movie) else none)
    ∧ ((jlookup kvs "title").isNone = true → (mkRecord movie).title = .null)
    ∧ ((jlookup kvs "runtime").isNone = true → (mkRecord movie).length = .null)
    ∧ ((jlookup kvs "external_ids").isNone = true → (mkRecord movie).imdb_id = .null)
    ∧ ((jlookup kvs "release_date").isNone = true → (mkRecord movie).year = none)
    ∧ ((jlookup kvs "poster_path").isNone = true → (mkRecord movie).poster = none) := by
  subst hm
  refine ⟨extract_data_eq _ h, ?_, ?_, ?_, ?_, ?_⟩ <;>
    intro hnone <;>
    simp only [Option.isNone_iff_eq_none] at hnone <;>
    simp [mkRecord, jgetD, jlookup, yearVal, posterVal, pyTruthy, hnone]

/-- Concrete good-shaped input for the C3 witness. -/
def mC3w : JVal := .jobj [("id", .jnum 7)]

theorem C3_witness :
    extract_data mC3w = .ok (if pyTruthy mC3w then some (mkRecord mC3w) else none) :=
  (C3_extract_total_on_good_shapes mC3w [("id", .jnum 7)] rfl (by decide)).1

/-- A raw detail payload with a dash-free, non-empty release date. -/
def movieC9 : JVal := .jobj [("release_date", .jstr "19991231")]

/-- C9, counterexample: for the non-empty release date "19991231" the
normalized year is the whole string — `split("-")[0]` — and not the
4-character prefix "1999" the claim requires. -/
theorem C9_year_not_four_chars :
    extract_data movieC9 = .ok (some (mkRecord movieC9))
    ∧ (mkRecord movieC9).year = some "19991231"
    ∧ String.take "19991231" 4 = "1999"
    ∧ (mkRecord movieC9).year ≠ some (String.take "19991231" 4) := by
  refine ⟨rfl, by decide, by decide, by decide⟩

/-- C9, amended: for a (good-shaped) RawDetail whose release-date field is
a non-empty string s, the year field is the prefix of s before the first
"-" — equal to the 4-character prefix exactly when the date is in
YYYY-MM-DD shape — and an absent or empty release date yields null. -/
theorem C9_year_before_first_dash (movie : JVal) (kvs : List (String × JVal))
    (hm : movie = .jobj kvs) (h : goodShape movie = true) :
    (∀ s : String, jlookup kvs "release_date" = some (.jstr s) → s ≠ "" →
        (mkRecord movie).year = some (upToDash s))
    ∧ (∀ s : String, jlookup kvs "release_date" = some (.jstr s) → s = "" →
        (mkRecord movie).year = none)
    ∧ (jlookup kvs "release_date" = none → (mkRecord movie).year = none)
    ∧ (pyTruthy movie = true → extract_data movie = .ok (some (mkRecord movie))) := by
  subst hm
  refine ⟨?_, ?_, ?_, ?_⟩
  · intro s hrd hs
    simp [mkRecord, yearVal, jgetD, hrd, hs]
  · intro s hrd hs
    subst hs
    simp [mkRecord, yearVal, jgetD, hrd]
  · intro hrd
    simp [mkRecord, yearVal, jgetD, hrd]
  · intro htr
    rw [extract_data_eq _ h, if_pos htr]

/-- Concrete input for the C9 witness. -/
def mC9w : JVal := .jobj [("release_date", .jstr "2005-03-01")]

theorem C9_witness :
    (mkRecord mC9w).year = some (upToDash "2005-03-01") :=
  (C9_year_before_first_dash mC9w [("release_date", .jstr "2005-03-01")] rfl
      (by decide)).1 "2005-03-01" rfl (by decide)

/-! ## `safe_request` (fetch_tmdb.py lines 50-84)

The HTTP layer is an oracle: attempt `i` of a call receives `env i`.
The loop counter, quota-header updates, sleeps and the final outcome are
transcribed from the source. -/

def MAX_RETRIES : Nat := 5
def RETRY_DELAY : Int := 5
def BATCH_SIZE : Nat := 50

/-- Outcome of one `requests.get` attempt: 200 (with optional quota
headers), 429 (with optional Retry-After), or a transient failure (other
status / transport error — the script treats both identically). -/
inductive HttpOutcome where
  | ok (remaining dlimit : Option Int)
  | rate (retryAfter : Option Int)
  | fail

/-- Observable result of `safe_request`: whether a payload was returned,
how many GET attempts were issued, the sleeps performed (in order), and
the final quota globals. -/
structure ReqResult where
  success : Bool
  attempts : Nat
  waits : List Int
  remaining : Option Int
  dlimit : Option Int

/-- Header update on a 200 response: each global is overwritten only when
its header is present. -/
def updHdr (old : Option Int) (hdr : Option Int) : Option Int :=
  match hdr with
  | some v => some v
  | none => old

/-- The `while retries < MAX_RETRIES` loop; `budget` is
`MAX_RETRIES - retries`, `idx` the number of attempts already issued. -/
def safe_request_go (env : Nat → HttpOutcome) :
    Nat → Nat → Option Int → Option Int → List Int → ReqResult
  | 0, idx, rem, lim, ws => ⟨false, idx, ws, rem, lim⟩
  | budget + 1, idx, rem, lim, ws =>
    match env idx with
    | .ok r l => ⟨true, idx + 1, ws, updHdr rem r, updHdr lim l⟩
    | .rate ra => safe_request_go env budget (idx + 1) rem lim (ws ++ [ra.getD RETRY_DELAY])
    | .fail => safe_request_go env budget (idx + 1) rem lim (ws ++ [RETRY_DELAY])

/-- `safe_request`, starting from the current quota globals. -/
def safe_request (rem lim : Option Int) (env : Nat → HttpOutcome) : ReqResult :=
  safe_request_go env MAX_RETRIES 0 rem lim []

theorem safe_request_go_waits (env : Nat → HttpOutcome) :
    ∀ budget idx rem lim ws, ∃ l,
      (safe_request_go env budget idx rem lim ws).waits = ws ++ l := by
  intro budget
  induction budget with
  | zero => intro idx rem lim ws; exact ⟨[], by simp [safe_request_go]⟩
  | succ b ih =>
    intro idx rem lim ws
    simp only [safe_request_go]
    cases env idx with
    | ok r l => exact ⟨[], by simp⟩
    | rate ra =>
      obtain ⟨l, hl⟩ := ih (idx + 1) rem lim (ws ++ [ra.getD RETRY_DELAY])
      exact ⟨ra.getD RETRY_DELAY :: l, by simp [hl]⟩
    | fail =>
      obtain ⟨l, hl⟩ := ih (idx + 1) rem lim (ws ++ [RETRY_DELAY])
      exact ⟨RETRY_DELAY :: l, by simp [hl]⟩

/-- C5: a request whose every attempt fails transiently is attempted
exactly `MAX_RETRIES = 5` times, sleeps the fixed delay after each
attempt, and then returns the absent result (None) instead of raising. -/
theorem C5_retry_bound (env : Nat → HttpOutcome) (rem lim : Option Int)
    (h : ∀ i, i < MAX_RETRIES → env i = .fail) :
    (safe_request rem lim env).attempts = MAX_RETRIES
    ∧ (safe_request rem lim env).success = false
    ∧ (safe_request rem lim env).waits =
        List.replicate MAX_RETRIES RETRY_DELAY := by
  have h0 := h 0 (by decide)
  have h1 := h 1 (by decide)
  have h2 := h 2 (by decide)
  have h3 := h 3 (by decide)
  have h4 := h 4 (by decide)
  simp [safe_request, MAX_RETRIES, safe_request_go, h0, h1, h2, h3, h4,
    List.replicate, RETRY_DELAY]

theorem C5_witness :
    (safe_request none none (fun _ => .fail)).attempts = MAX_RETRIES
    ∧ (safe_request none none (fun _ => .fail)).success = false
    ∧ (safe_request none none (fun _ => .fail)).waits =
        List.replicate MAX_RETRIES RETRY_DELAY :=
  C5_retry_bound (fun _ => .fail) none none (fun _ _ => rfl)

/-- C7: a 429 first response makes the executor sleep the server-provided
Retry-After value before the next attempt — the fixed `RETRY_DELAY` is
used only when the header is absent. -/
theorem safe_request_unfold (env : Nat → HttpOutcome) (rem lim : Option Int) :
    safe_request rem lim env =
      match env 0 with
      | .ok r l => ⟨true, 1, [], updHdr rem r, updHdr lim l⟩
      | .rate ra => safe_request_go env 4 1 rem lim [ra.getD RETRY_DELAY]
      | .fail => safe_request_go env 4 1 rem lim [RETRY_DELAY] := rfl

theorem C7_retry_after (env : Nat → HttpOutcome) (rem lim : Option Int)
    (ra : Option Int) (h : env 0 = .rate ra) :
    (safe_request rem lim env).waits.head? = some (ra.getD RETRY_DELAY) := by
  rw [safe_request_unfold, h]
  obtain ⟨l, hl⟩ := safe_request_go_waits env 4 1 rem lim [ra.getD RETRY_DELAY]
  simp [hl]

theorem C7_witness :
    (safe_request none none (fun _ => .rate (some 3))).waits.head? = some 3
    ∧ (safe_request none none (fun _ => .rate none)).waits.head? = some RETRY_DELAY :=
  ⟨C7_retry_after (fun _ => .rate (some 3)) none none (some 3) rfl,
   C7_retry_after (fun _ => .rate none) none none none rfl⟩

/-! ## `safe_upsert` (fetch_tmdb.py lines 141-156) -/

/-- `records[start:start+bs]` chunking of the `for start in range(0,
total, batch_size)` loop, structurally recursing on a length fuel.
(Python raises on a zero step; callers always pass a positive size.) -/
def chunksGo {α : Type} (bs : Nat) : Nat → List α → List (List α)
  | 0, _ => []
  | _, [] => []
  | fuel + 1, l => l.take bs :: chunksGo bs fuel (l.drop bs)

/-- The consecutive batches `safe_upsert` slices out of `records`. -/
def chunks {α : Type} (bs : Nat) (l : List α) : List (List α) :=
  chunksGo bs l.length l

/-- Number of `table.upsert` calls issued for one batch: attempts repeat
(while-loop with its own counter) until the oracle reports success or
`retries` attempts were made. -/
def chunkCalls (ok : Nat → Bool) : Nat → Nat → Nat
  | 0, _ => 0
  | budget + 1, attempt => if ok attempt then 1 else 1 + chunkCalls ok budget (attempt + 1)

/-- The sequence of upsert-call payloads `safe_upsert` issues, in order;
`ok i j` tells whether attempt `j` on batch `i` succeeds. -/
def safe_upsert {α : Type} (ok : Nat → Nat → Bool) (records : List α)
    (bs retries : Nat) : List (List α) :=
  ((chunks bs records).enum.map
    (fun p => List.replicate (chunkCalls (ok p.1) retries 0) p.2)).flatten

/-- Batch sizes as a function of the record count alone. -/
def chunkLensGo (bs : Nat) : Nat → Nat → List Nat
  | 0, _ => []
  | _, 0 => []
  | fuel + 1, n + 1 => min bs (n + 1) :: chunkLensGo bs fuel (n + 1 - bs)

theorem chunksGo_join {α : Type} (bs : Nat) (hbs : 0 < bs) :
    ∀ fuel (l : List α), l.length ≤ fuel → (chunksGo bs fuel l).flatten = l := by
  intro fuel
  induction fuel with
  | zero =>
    intro l hl
    have : l = [] := List.eq_nil_of_length_eq_zero (Nat.le_zero.mp hl)
    subst this; rfl
  | succ f ih =>
    intro l hl
    cases l with
    | nil => rfl
    | cons a t =>
      have hd : (List.drop bs (a :: t)).length ≤ f := by
        simp only [List.length_drop, List.length_cons]
        simp only [List.length_cons] at hl
        omega
      simp only [chunksGo, List.flatten_cons]
      rw [ih _ hd, List.take_append_drop]

theorem chunksGo_sizes {α : Type} (bs : Nat) :
    ∀ fuel (l : List α), ∀ c ∈ chunksGo bs fuel l, c.length ≤ bs := by
  intro fuel
  induction fuel with
  | zero => intro l c hc; simp [chunksGo] at hc
  | succ f ih =>
    intro l c hc
    cases l with
    | nil => simp [chunksGo] at hc
    | cons a t =>
      simp only [chunksGo, List.mem_cons] at hc
      rcases hc with h | h
      · subst h; simp
      · exact ih _ c h

theorem chunksGo_lens {α : Type} (bs : Nat) :
    ∀ fuel (l : List α),
      (chunksGo bs fuel l).map List.length = chunkLensGo bs fuel l.length := by
  intro fuel
  induction fuel with
  | zero => intro l; cases l <;> rfl
  | succ f ih =>
    intro l
    cases l with
    | nil => rfl
    | cons a t =>
      simp only [chunksGo, List.map_cons, List.length_cons, chunkLensGo, ih,
        List.length_take, List.length_drop]

theorem safe_upsert_all_ok {α : Type} (ok : Nat → Nat → Bool) (records : List α)
    (bs r : Nat) (hok : ∀ i j, ok i j = true) :
    safe_upsert ok records bs (r + 1) = chunks bs records := by
  unfold safe_upsert
  have hfun : ∀ p : Nat × List α,
      List.replicate (chunkCalls (ok p.1) (r + 1) 0) p.2 = [p.2] := by
    intro p
    simp [chunkCalls, hok]
  have key : ∀ n (cs : List (List α)),
      ((List.enumFrom n cs).map (fun p : Nat × List α => [p.2])).flatten = cs := by
    intro n cs
    induction cs generalizing n with
    | nil => rfl
    | cons c t iht =>
      simp only [List.enumFrom, List.map_cons, List.flatten_cons,
        List.singleton_append, List.cons.injEq, true_and]
      exact iht (n + 1)
  simp only [List.enum, hfun]
  exact key 0 (chunks bs records)

/-- C6: for a positive batch size (and an upsert backend that accepts each
batch), `safe_upsert` issues exactly the consecutive chunks of at most
`bs` records, in original order; 120 records at batch size 50 yield
exactly the three calls of sizes 50, 50, 20. -/
theorem C6_batch_chunking {α : Type} (ok : Nat → Nat → Bool) (records : List α)
    (bs r : Nat) (hbs : 0 < bs) (hok : ∀ i j, ok i j = true) :
    safe_upsert ok records bs (r + 1) = chunks bs records
    ∧ (chunks bs records).flatten = records
    ∧ (∀ c ∈ chunks bs records, c.length ≤ bs)
    ∧ (records.length = 120 → bs = 50 →
        (chunks bs records).map List.length = [50, 50, 20]) := by
  refine ⟨safe_upsert_all_ok ok records bs r hok,
    chunksGo_join bs hbs records.length records le_rfl,
    fun c hc => chunksGo_sizes bs records.length records c hc, ?_⟩
  intro h120 h50
  subst h50
  rw [chunks, chunksGo_lens, h120]
  decide

theorem C6_witness :
    safe_upsert (fun _ _ => true) (List.range 120) 50 MAX_RETRIES =
        chunks 50 (List.range 120)
    ∧ (chunks 50 (List.range 120)).flatten = List.range 120
    ∧ (∀ c ∈ chunks 50 (List.range 120), c.length ≤ 50)
    ∧ (chunks 50 (List.range 120)).map List.length = [50, 50, 20] := by
  have h := C6_batch_chunking (fun _ _ => true) (List.range 120) 50 4
    (by decide) (fun _ _ => rfl)
  exact ⟨h.1, h.2.1, h.2.2.1, h.2.2.2 (by simp) rfl⟩

/-! ## `main` (fetch_tmdb.py lines 163-223)

The traversal / checkpoint / quota state machine. Billed TMDb calls
(listing and detail fetches) are events recorded in the state; each call
event also records the value of the `remaining_requests` global at the
moment the call was issued. Supabase writes of the `fetch_progress` row
(`save_progress`) are recorded in `saves`. The environment supplies the
post-retry outcome of every fetch; quota headers arrive only on a
successful fetch, each header optionally updating the global. Fuel bounds
the `while True` page loop (a model artifact only). -/

/-- A listing payload: `results` is `none` when the key is absent (or the
dict is empty); `total_pages` falls back to 1 via `.get` when absent. -/
structure Payload where
  results : Option (List Int)
  total_pages : Option Nat
deriving DecidableEq

/-- Post-retry outcomes of the billed fetches, and the quota header (new
`remaining_requests` value) carried by each successful response. -/
structure Env where
  listing : Int → String → Nat → Option Payload
  listingRem : Int → String → Nat → Option Int
  details : Int → Option Bool
  detailsRem : Int → Option Int

/-- A billed TMDb call, tagged with `remaining_requests` at issue time. -/
inductive Call where
  | listing (year : Int) (region : String) (page : Nat) (remAtIssue : Option Int)
  | details (movieId : Int) (remAtIssue : Option Int)
deriving DecidableEq

def Call.remAtIssue : Call → Option Int
  | .listing _ _ _ q => q
  | .details _ q => q

/-- Observable run state: quota global, billed calls (in order),
`save_progress` writes (in order), and whether the run returned early. -/
structure St where
  rem : Option Int
  calls : List Call
  saves : List (Int × String × Nat)
  halted : Bool
deriving DecidableEq

/-- `remaining_requests is not None and remaining_requests <= 1`. -/
def quotaLow (rem : Option Int) : Bool :=
  match rem with
  | some r => r ≤ 1
  | none => false

/-- Apply a quota header carried by a successful response. -/
def updRem (rem : Option Int) (hdr : Option Int) : Option Int :=
  match hdr with
  | some v => some v
  | none => rem

/-- The per-movie detail loop (lines 192-203): before each detail fetch
the quota is re-checked; on exhaustion the checkpoint is saved at the
*current* page and the whole run returns. -/
def enrich (env : Env) (year : Int) (region : String) (page : Nat) :
    List Int → St → St
  | [], st => st
  | mid :: rest, st =>
    if quotaLow st.rem then
      { st with saves := st.saves ++ [(year, region, page)], halted := true }
    else
      let st1 : St := { st with calls := st.calls ++ [.details mid st.rem] }
      let st2 : St :=
        match env.details mid with
        | some _ => { st1 with rem := updRem st1.rem (env.detailsRem mid) }
        | none => st1
      enrich env year region page rest st2

/-- The `while True` page loop (lines 173-217). Quota check, listing
fetch, terminal checks (`no data`/`results` absent/empty), detail loop,
per-page checkpoint, `total_pages` bound, next page. -/
def pageLoop (env : Env) (year : Int) (region : String) :
    Nat → Nat → St → St
  | 0, _, st => st
  | fuel + 1, page, st =>
    if quotaLow st.rem then
      { st with saves := st.saves ++ [(year, region, page - 1)], halted := true }
    else
      let st1 : St := { st with calls := st.calls ++ [.listing year region page st.rem] }
      match env.listing year region page with
      | none => st1
      | some pl =>
        let st2 : St := { st1 with rem := updRem st1.rem (env.listingRem year region page) }
        match pl.results with
        | none => st2
        | some [] => st2
        | some (m :: ms) =>
          let st3 := enrich env year region page (m :: ms) st2
          if st3.halted then st3
          else
            let st4 : St := { st3 with saves := st3.saves ++ [(year, region, page)] }
            if page ≥ pl.total_pages.getD 1 then st4
            else pageLoop env year region fuel (page + 1) st4

/-- The `for region in regions` loop (lines 169-220). `cp` threads the
mutable `current_page`, which the source resets to 0 after *every*
region's page loop. -/
def regionLoop (env : Env) (fuel : Nat) (cy : Int) (cr : String) (year : Int) :
    List String → Nat → St → St × Nat
  | [], cp, st => (st, cp)
  | r :: rest, cp, st =>
    if st.halted then (st, cp)
    else
      let startPage := if year = cy ∧ r = cr then cp + 1 else 1
      let st1 := pageLoop env year r fuel startPage st
      regionLoop env fuel cy cr year rest 0 st1

/-- The `for year in range(current_year, 2024)` loop. -/
def yearLoop (env : Env) (fuel : Nat) (cy : Int) (cr : String) :
    List Int → Nat → St → St
  | [], _, st => st
  | y :: rest, cp, st =>
    if st.halted then st
    else
      yearLoop env fuel cy cr rest
        (regionLoop env fuel cy cr y ["US", "IN"] cp st).2
        (regionLoop env fuel cy cr y ["US", "IN"] cp st).1

/-- `range(current_year, 2024)` over integers. -/
def yearRange (cy : Int) : List Int :=
  (List.range (2024 - cy).toNat).map (fun i => cy + i)

/-- Result of a run: final state plus the `fetch_progress` row inserted
by `get_progress` when no checkpoint row existed. -/
structure RunOut where
  st : St
  initInsert : Option (Int × String × Nat)
deriving DecidableEq

/-- `main` (lines 163-223): load or initialize the checkpoint, sweep
years × regions × pages, and on normal completion save the past-range
sentinel (2025, "US", 0). -/
def mainRun (env : Env) (fuel : Nat) (checkpoint : Option (Int × String × Nat)) : RunOut :=
  let cy := (checkpoint.getD (2000, "US", 0)).1
  let cr := (checkpoint.getD (2000, "US", 0)).2.1
  let cp := (checkpoint.getD (2000, "US", 0)).2.2
  let ins : Option (Int × String × Nat) :=
    if checkpoint.isSome then none else some (2000, "US", 0)
  let st0 : St := ⟨none, [], [], false⟩
  let st1 := yearLoop env fuel cy cr (yearRange cy) cp st0
  let st2 := if st1.halted then st1
    else { st1 with saves := st1.saves ++ [(2025, "US", 0)] }
  ⟨st2, ins⟩

/-- A quiet environment: every listing succeeds with an empty result list
(ending that pair immediately), no quota headers ever arrive. -/
def envEmpty : Env where
  listing := fun _ _ _ => some ⟨some [], some 1⟩
  listingRem := fun _ _ _ => none
  details := fun _ => some true
  detailsRem := fun _ => none

/-! ## Main-loop lemmas -/

/-- Run invariant: every billed call was issued while the quota gate was
open, and a halted run has written at least one checkpoint. -/
def Inv (st : St) : Prop :=
  (∀ c ∈ st.calls, quotaLow c.remAtIssue = false) ∧ (st.halted = true → st.saves ≠ [])

theorem enrich_inv (env : Env) (y : Int) (r : String) (p : Nat) :
    ∀ mids st, Inv st → Inv (enrich env y r p mids st) := by
  intro mids
  induction mids with
  | nil => intro st h; exact h
  | cons mid rest ih =>
    intro st h
    simp only [enrich]
    by_cases hq : quotaLow st.rem = true
    · rw [if_pos hq]
      exact ⟨h.1, fun _ => by simp⟩
    · rw [if_neg hq]
      have hbase : Inv { st with calls := st.calls ++ [.details mid st.rem] } := by
        constructor
        · intro c hc
          rcases List.mem_append.mp hc with hc | hc
          · exact h.1 c hc
          · rcases List.mem_singleton.mp hc with rfl
            simpa [Call.remAtIssue] using (Bool.not_eq_true _).mp hq
        · exact h.2
      cases hd : env.details mid with
      | some b => exact ih _ ⟨hbase.1, hbase.2⟩
      | none => exact ih _ hbase

theorem enrich_calls_shape (env : Env) (y : Int) (r : String) (p : Nat) :
    ∀ mids st, ∃ l, (enrich env y r p mids st).calls = st.calls ++ l
      ∧ ∀ c ∈ l, ∃ mid q, c = .details mid q := by
  intro mids
  induction mids with
  | nil => intro st; exact ⟨[], by simp [enrich]⟩
  | cons mid rest ih =>
    intro st
    simp only [enrich]
    by_cases hq : quotaLow st.rem = true
    · rw [if_pos hq]
      exact ⟨[], by simp⟩
    · rw [if_neg hq]
      cases hd : env.details mid with
      | some b =>
        obtain ⟨l, hl, hs⟩ := ih { st with
          calls := st.calls ++ [.details mid st.rem],
          rem := updRem st.rem (env.detailsRem mid) }
        refine ⟨.details mid st.rem :: l, ?_, ?_⟩
        · simpa using hl
        · intro c hc
          rcases List.mem_cons.mp hc with hc | hc
          · exact ⟨mid, st.rem, hc⟩
          · exact hs c hc
      | none =>
        obtain ⟨l, hl, hs⟩ := ih { st with calls := st.calls ++ [.details mid st.rem] }
        refine ⟨.details mid st.rem :: l, ?_, ?_⟩
        · simpa using hl
        · intro c hc
          rcases List.mem_cons.mp hc with hc | hc
          · exact ⟨mid, st.rem, hc⟩
          · exact hs c hc

theorem pageLoop_inv (env : Env) (y : Int) (r : String) :
    ∀ fuel p st, Inv st → Inv (pageLoop env y r fuel p st) := by
  intro fuel
  induction fuel with
  | zero => intro p st h; exact h
  | succ f ih =>
    intro p st h
    simp only [pageLoop]
    by_cases hq : quotaLow st.rem = true
    · rw [if_pos hq]
      exact ⟨h.1, fun _ => by simp⟩
    · rw [if_neg hq]
      have h1 : Inv { st with calls := st.calls ++ [.listing y r p st.rem] } := by
        constructor
        · intro c hc
          rcases List.mem_append.mp hc with hc | hc
          · exact h.1 c hc
          · rcases List.mem_singleton.mp hc with rfl
            simpa [Call.remAtIssue] using (Bool.not_eq_true _).mp hq
        · exact h.2
      split
      · exact h1
      · split
        · exact ⟨h1.1, h1.2⟩
        · exact ⟨h1.1, h1.2⟩
        · rename_i m ms hres
          have h3 := enrich_inv env y r p (m :: ms)
            { st with
              calls := st.calls ++ [.listing y r p st.rem],
              rem := updRem st.rem (env.listingRem y r p) } ⟨h1.1, h1.2⟩
          split
          · exact h3
          · split
            · exact ⟨h3.1, fun _ => by simp⟩
            · exact ih (p + 1) _ ⟨h3.1, fun _ => by simp⟩

theorem pageLoop_calls_shape (env : Env) (y : Int) (r : String) :
    ∀ fuel p st, ∃ l, (pageLoop env y r fuel p st).calls = st.calls ++ l
      ∧ ∀ c ∈ l, (∃ q rq, c = .listing y r q rq ∧ p ≤ q)
        ∨ (∃ mid rq, c = .details mid rq) := by
  intro fuel
  induction fuel with
  | zero => intro p st; exact ⟨[], by simp [pageLoop]⟩
  | succ f ih =>
    intro p st
    simp only [pageLoop]
    by_cases hq : quotaLow st.rem = true
    · rw [if_pos hq]
      exact ⟨[], by simp⟩
    · rw [if_neg hq]
      have hone : ∀ c ∈ [Call.listing y r p st.rem],
          (∃ q rq, c = .listing y r q rq ∧ p ≤ q)
            ∨ (∃ mid rq, c = .details mid rq) := by
        intro c hc
        rcases List.mem_singleton.mp hc with rfl
        exact Or.inl ⟨p, st.rem, rfl, le_rfl⟩
      split
      · exact ⟨[.listing y r p st.rem], rfl, hone⟩
      · split
        · exact ⟨[.listing y r p st.rem], rfl, hone⟩
        · exact ⟨[.listing y r p st.rem], rfl, hone⟩
        · rename_i m ms hres
          obtain ⟨l1, hl1, hs1⟩ := enrich_calls_shape env y r p (m :: ms)
            { st with
              calls := st.calls ++ [.listing y r p st.rem],
              rem := updRem st.rem (env.listingRem y r p) }
          have hcomb : ∀ c ∈ Call.listing y r p st.rem :: l1,
              (∃ q rq, c = .listing y r q rq ∧ p ≤ q)
                ∨ (∃ mid rq, c = .details mid rq) := by
            intro c hc
            rcases List.mem_cons.mp hc with rfl | hc
            · exact Or.inl ⟨p, st.rem, rfl, le_rfl⟩
            · exact Or.inr (hs1 c hc)
          split
          · exact ⟨.listing y r p st.rem :: l1, by simpa using hl1, hcomb⟩
          · split
            · exact ⟨.listing y r p st.rem :: l1, by simpa using hl1, hcomb⟩
            · obtain ⟨l2, hl2, hs2⟩ := ih (p + 1)
                { enrich env y r p (m :: ms)
                    { st with
                      calls := st.calls ++ [.listing y r p st.rem],
                      rem := updRem st.rem (env.listingRem y r p) } with
                  saves := (enrich env y r p (m :: ms)
                    { st with
                      calls := st.calls ++ [.listing y r p st.rem],
                      rem := updRem st.rem (env.listingRem y r p) }).saves ++ [(y, r, p)] }
              refine ⟨.listing y r p st.rem :: (l1 ++ l2), ?_, ?_⟩
              · rw [hl2]
                have hc4 : ({ enrich env y r p (m :: ms)
                    { st with
                      calls := st.calls ++ [.listing y r p st.rem],
                      rem := updRem st.rem (env.listingRem y r p) } with
                  saves := (enrich env y r p (m :: ms)
                    { st with
                      calls := st.calls ++ [.listing y r p st.rem],
                      rem := updRem st.rem (env.listingRem y r p) }).saves
                      ++ [(y, r, p)] } : St).calls
                    = (enrich env y r p (m :: ms)
                    { st with
                      calls := st.calls ++ [.listing y r p st.rem],
                      rem := updRem st.rem (env.listingRem y r p) }).calls := rfl
                rw [hc4, hl1]
                simp
              · intro c hc
                rcases List.mem_cons.mp hc with rfl | hc
                · exact Or.inl ⟨p, st.rem, rfl, le_rfl⟩
                · rcases List.mem_append.mp hc with hc | hc
                  · exact Or.inr (hs1 c hc)
                  · rcases hs2 c hc with ⟨q, rq, rfl, hpq⟩ | hd
                    · exact Or.inl ⟨q, rq, rfl, by omega⟩
                    · exact Or.inr hd

theorem regionLoop_inv (env : Env) (fuel : Nat) (cy : Int) (cr : String) (y : Int) :
    ∀ rs cp st, Inv st → Inv (regionLoop env fuel cy cr y rs cp st).1 := by
  intro rs
  induction rs with
  | nil => intro cp st h; exact h
  | cons r rest ih =>
    intro cp st h
    simp only [regionLoop]
    by_cases hh : st.halted = true
    · rw [if_pos hh]; exact h
    · rw [if_neg hh]
      exact ih 0 _ (pageLoop_inv env y r fuel _ st h)

theorem yearLoop_inv (env : Env) (fuel : Nat) (cy : Int) (cr : String) :
    ∀ ys cp st, Inv st → Inv (yearLoop env fuel cy cr ys cp st) := by
  intro ys
  induction ys with
  | nil => intro cp st h; exact h
  | cons y rest ih =>
    intro cp st h
    simp only [yearLoop]
    by_cases hh : st.halted = true
    · rw [if_pos hh]; exact h
    · rw [if_neg hh]
      exact ih _ _ (regionLoop_inv env fuel cy cr y ["US", "IN"] cp st h)

theorem regionLoop_calls_mono (env : Env) (fuel : Nat) (cy : Int) (cr : String) (y : Int) :
    ∀ rs cp st, ∃ l, (regionLoop env fuel cy cr y rs cp st).1.calls = st.calls ++ l := by
  intro rs
  induction rs with
  | nil => intro cp st; exact ⟨[], by simp [regionLoop]⟩
  | cons r rest ih =>
    intro cp st
    simp only [regionLoop]
    by_cases hh : st.halted = true
    · rw [if_pos hh]; exact ⟨[], by simp⟩
    · rw [if_neg hh]
      obtain ⟨l1, hl1, _⟩ := pageLoop_calls_shape env y r fuel
        (if y = cy ∧ r = cr then cp + 1 else 1) st
      obtain ⟨l2, hl2⟩ := ih 0 (pageLoop env y r fuel (if y = cy ∧ r = cr then cp + 1 else 1) st)
      exact ⟨l1 ++ l2, by rw [hl2, hl1, List.append_assoc]⟩

theorem yearLoop_calls_mono (env : Env) (fuel : Nat) (cy : Int) (cr : String) :
    ∀ ys cp st, ∃ l, (yearLoop env fuel cy cr ys cp st).calls = st.calls ++ l := by
  intro ys
  induction ys with
  | nil => intro cp st; exact ⟨[], by simp [yearLoop]⟩
  | cons y rest ih =>
    intro cp st
    simp only [yearLoop]
    by_cases hh : st.halted = true
    · rw [if_pos hh]; exact ⟨[], by simp⟩
    · rw [if_neg hh]
      obtain ⟨l1, hl1⟩ := regionLoop_calls_mono env fuel cy cr y ["US", "IN"] cp st
      obtain ⟨l2, hl2⟩ := ih (regionLoop env fuel cy cr y ["US", "IN"] cp st).2
        (regionLoop env fuel cy cr y ["US", "IN"] cp st).1
      exact ⟨l1 ++ l2, by rw [hl2, hl1, List.append_assoc]⟩

/-- One guarded step of the page loop always issues the listing call for
the starting page first. -/
theorem pageLoop_calls_cons (env : Env) (y : Int) (r : String) (fuel p : Nat) (st : St)
    (hq : quotaLow st.rem = false) :
    ∃ l, (pageLoop env y r (fuel + 1) p st).calls
      = st.calls ++ (Call.listing y r p st.rem :: l) := by
  simp only [pageLoop, hq, Bool.false_eq_true, if_false]
  split
  · exact ⟨[], rfl⟩
  · split
    · exact ⟨[], rfl⟩
    · exact ⟨[], rfl⟩
    · rename_i m ms hres
      obtain ⟨l1, hl1, _⟩ := enrich_calls_shape env y r p (m :: ms)
        { st with
          calls := st.calls ++ [.listing y r p st.rem],
          rem := updRem st.rem (env.listingRem y r p) }
      simp only at hl1
      split
      · exact ⟨l1, by rw [hl1]; simp⟩
      · split
        · exact ⟨l1, by rw [hl1]; simp⟩
        · obtain ⟨l2, hl2, _⟩ := pageLoop_calls_shape env y r fuel (p + 1) _
          refine ⟨l1 ++ l2, ?_⟩
          rw [hl2]
          have hc4 : ({ enrich env y r p (m :: ms)
              { st with
                calls := st.calls ++ [.listing y r p st.rem],
                rem := updRem st.rem (env.listingRem y r p) } with
            saves := (enrich env y r p (m :: ms)
              { st with
                calls := st.calls ++ [.listing y r p st.rem],
                rem := updRem st.rem (env.listingRem y r p) }).saves
                ++ [(y, r, p)] } : St).calls
              = (enrich env y r p (m :: ms)
              { st with
                calls := st.calls ++ [.listing y r p st.rem],
                rem := updRem st.rem (env.listingRem y r p) }).calls := rfl
          rw [hc4, hl1]
          simp

/-! ## Claims C1, C2, C4, C8, C10 -/

/-- C2: every billed call (listing or detail fetch) of any run is issued
while the quota gate is open — the tracked remaining value is either
still unknown (optimistic) or greater than 1 — and a run that returns
early on quota exhaustion has written a checkpoint first. -/
theorem C2_quota_gate (env : Env) (fuel : Nat) (cp : Option (Int × String × Nat)) :
    (∀ c ∈ (mainRun env fuel cp).st.calls, quotaLow c.remAtIssue = false)
    ∧ ((mainRun env fuel cp).st.halted = true → (mainRun env fuel cp).st.saves ≠ []) := by
  have h0 : Inv (⟨none, [], [], false⟩ : St) := ⟨by simp, by simp⟩
  have h1 := yearLoop_inv env fuel (cp.getD (2000, "US", 0)).1
    (cp.getD (2000, "US", 0)).2.1 (yearRange (cp.getD (2000, "US", 0)).1)
    (cp.getD (2000, "US", 0)).2.2 ⟨none, [], [], false⟩ h0
  unfold mainRun
  dsimp only
  split
  · exact ⟨h1.1, h1.2⟩
  · rename_i hh
    exact ⟨h1.1, fun hcontra => absurd hcontra hh⟩

theorem C2_witness :
    quotaLow (Call.listing 2000 "US" 1 none).remAtIssue = false
    ∧ ((mainRun envEmpty 3 none).st.halted = true
        → (mainRun envEmpty 3 none).st.saves ≠ []) :=
  ⟨(C2_quota_gate envEmpty 3 none).1 (Call.listing 2000 "US" 1 none) (by decide),
   (C2_quota_gate envEmpty 3 none).2⟩

/-- C4: when the per-item quota re-check fires mid-page (some items still
pending), `save_progress` is called with the *current* page number and
the run halts; a halted state passes unchanged through the remaining
region and year loops. -/
theorem C4_midpage_checkpoint (env : Env) (y : Int) (r : String) (p : Nat)
    (mid : Int) (rest : List Int) (st : St) (hq : quotaLow st.rem = true) :
    enrich env y r p (mid :: rest) st
      = { st with saves := st.saves ++ [(y, r, p)], halted := true }
    ∧ (∀ env' fuel cy cr y' rs cp (st' : St), st'.halted = true →
        regionLoop env' fuel cy cr y' rs cp st' = (st', cp))
    ∧ (∀ env' fuel cy cr ys cp (st' : St), st'.halted = true →
        yearLoop env' fuel cy cr ys cp st' = st') := by
  refine ⟨?_, ?_, ?_⟩
  · simp [enrich, hq]
  · intro env' fuel cy cr y' rs cp st' h
    cases rs with
    | nil => rfl
    | cons r' rs' => simp [regionLoop, h]
  · intro env' fuel cy cr ys cp st' h
    cases ys with
    | nil => rfl
    | cons y' ys' => simp [yearLoop, h]

/-- A state whose quota global is known and exhausted. -/
def stLow : St := ⟨some 1, [], [], false⟩

theorem C4_witness :
    enrich envEmpty 2001 "US" 3 [7] stLow
      = { stLow with saves := stLow.saves ++ [(2001, "US", 3)], halted := true }
    ∧ regionLoop envEmpty 3 2001 "US" 2001 ["US", "IN"] 0
        { stLow with saves := stLow.saves ++ [(2001, "US", 3)], halted := true }
      = ({ stLow with saves := stLow.saves ++ [(2001, "US", 3)], halted := true }, 0)
    ∧ yearLoop envEmpty 3 2001 "US" [2002] 0
        { stLow with saves := stLow.saves ++ [(2001, "US", 3)], halted := true }
      = { stLow with saves := stLow.saves ++ [(2001, "US", 3)], halted := true } := by
  have h := C4_midpage_checkpoint envEmpty 2001 "US" 3 7 [] stLow (by decide)
  exact ⟨h.1, h.2.1 envEmpty 3 2001 "US" 2001 ["US", "IN"] 0 _ rfl,
    h.2.2 envEmpty 3 2001 "US" [2002] 0 _ rfl⟩

/-- C8: when a listing response is terminal — the results key is absent,
the item list is empty, or the current page has reached the reported
`total_pages` (defaulting to 1) — the rest of that (year, region) page
loop issues no listing call for any page other than the current one; in
particular `total_pages = 1` at page 1 never triggers a page-2 listing. -/
theorem C8_pagination_terminal (env : Env) (y : Int) (r : String) (fuel p : Nat)
    (st : St) (pl : Payload) (hq : quotaLow st.rem = false)
    (hl : env.listing y r p = some pl)
    (hterm : pl.results = none ∨ pl.results = some []
      ∨ p ≥ pl.total_pages.getD 1) :
    ∃ l, (pageLoop env y r (fuel + 1) p st).calls = st.calls ++ l
      ∧ ∀ c ∈ l, ∀ y' r' q rq, c = .listing y' r' q rq → q = p := by
  simp only [pageLoop, hq, Bool.false_eq_true, if_false, hl]
  have hone : ∀ c ∈ [Call.listing y r p st.rem],
      ∀ y' r' q rq, c = .listing y' r' q rq → q = p := by
    intro c hc y' r' q rq hcq
    rcases List.mem_singleton.mp hc with rfl
    cases hcq
    rfl
  split
  · exact ⟨[Call.listing y r p st.rem], rfl, hone⟩
  · exact ⟨[Call.listing y r p st.rem], rfl, hone⟩
  · rename_i m ms hres
    have hp : p ≥ pl.total_pages.getD 1 := by
      rcases hterm with h | h | h
      · rw [hres] at h; cases h
      · rw [hres] at h; cases h
      · exact h
    obtain ⟨l1, hl1, hs1⟩ := enrich_calls_shape env y r p (m :: ms)
      { st with
        calls := st.calls ++ [.listing y r p st.rem],
        rem := updRem st.rem (env.listingRem y r p) }
    simp only at hl1
    have hcomb : ∀ c ∈ Call.listing y r p st.rem :: l1,
        ∀ y' r' q rq, c = .listing y' r' q rq → q = p := by
      intro c hc y' r' q rq hcq
      rcases List.mem_cons.mp hc with rfl | hc
      · cases hcq; rfl
      · obtain ⟨mid, qq, rfl⟩ := hs1 c hc
        cases hcq
    split
    all_goals
      exact ⟨Call.listing y r p st.rem :: l1, by simpa using hl1, hcomb⟩

/-- Environment for the C8 witness: a single movie on a single page. -/
def envOnePage : Env where
  listing := fun _ _ _ => some ⟨some [4], some 1⟩
  listingRem := fun _ _ _ => none
  details := fun _ => some true
  detailsRem := fun _ => none

theorem C8_witness :
    ∃ l, (pageLoop envOnePage 2001 "US" 1 1 ⟨none, [], [], false⟩).calls = [] ++ l
      ∧ ∀ c ∈ l, ∀ y' r' q rq, c = .listing y' r' q rq → q = 1 :=
  C8_pagination_terminal envOnePage 2001 "US" 0 1 ⟨none, [], [], false⟩
    ⟨some [4], some 1⟩ rfl rfl (Or.inr (Or.inr (by decide)))

theorem yearRange_2000 : yearRange 2000 = 2000 :: yearRange 2001 := by decide

/-- C10: when no checkpoint row exists at startup, `get_progress` inserts
and returns (2000, "US", 0), and the run's first listing call targets
year 2000, region "US", page 1. -/
theorem C10_fresh_start (env : Env) (fuel : Nat) (hf : 0 < fuel) :
    (mainRun env fuel none).initInsert = some (2000, "US", 0)
    ∧ (mainRun env fuel none).st.calls.head?
        = some (.listing 2000 "US" 1 none) := by
  obtain ⟨f, rfl⟩ : ∃ f, fuel = f + 1 := ⟨fuel - 1, by omega⟩
  refine ⟨rfl, ?_⟩
  have hmain : (mainRun env (f + 1) none).st.calls
      = (yearLoop env (f + 1) 2000 "US" (yearRange 2000) 0 ⟨none, [], [], false⟩).calls := by
    unfold mainRun
    dsimp only
    split <;> rfl
  have hyear : yearLoop env (f + 1) 2000 "US" (yearRange 2000) 0 ⟨none, [], [], false⟩
      = yearLoop env (f + 1) 2000 "US" (yearRange 2001)
          (regionLoop env (f + 1) 2000 "US" 2000 ["US", "IN"] 0 ⟨none, [], [], false⟩).2
          (regionLoop env (f + 1) 2000 "US" 2000 ["US", "IN"] 0 ⟨none, [], [], false⟩).1 := by
    rw [yearRange_2000]
    rfl
  have hregion : regionLoop env (f + 1) 2000 "US" 2000 ["US", "IN"] 0 ⟨none, [], [], false⟩
      = regionLoop env (f + 1) 2000 "US" 2000 ["IN"] 0
          (pageLoop env 2000 "US" (f + 1) 1 ⟨none, [], [], false⟩) := by
    rfl
  obtain ⟨l1, hl1⟩ := pageLoop_calls_cons env 2000 "US" f 1 ⟨none, [], [], false⟩ rfl
  obtain ⟨l2, hl2⟩ := regionLoop_calls_mono env (f + 1) 2000 "US" 2000 ["IN"] 0
    (pageLoop env 2000 "US" (f + 1) 1 ⟨none, [], [], false⟩)
  obtain ⟨l3, hl3⟩ := yearLoop_calls_mono env (f + 1) 2000 "US" (yearRange 2001)
    (regionLoop env (f + 1) 2000 "US" 2000 ["US", "IN"] 0 ⟨none, [], [], false⟩).2
    (regionLoop env (f + 1) 2000 "US" 2000 ["US", "IN"] 0 ⟨none, [], [], false⟩).1
  rw [hregion] at hl3
  rw [hmain, hyear, hregion, hl3, hl2, hl1]
  simp

theorem C10_witness :
    (mainRun envEmpty 3 none).initInsert = some (2000, "US", 0)
    ∧ (mainRun envEmpty 3 none).st.calls.head?
        = some (.listing 2000 "US" 1 none) :=
  C10_fresh_start envEmpty 3 (by decide)

/-- Listing-call recognizer for a given (year, region). -/
def isListingAt (y : Int) (r : String) (c : Call) : Bool :=
  match c with
  | .listing y' r' _ _ => y' == y && r' == r
  | .details _ _ => false

/-- C1, evaluation at the failing checkpoint (2005, "IN", 7): because
`current_page` is reset to 0 after every region, the run's first listing
call for (2005, "IN") targets page 1 — not page 8 as resume correctness
requires — and the preceding pair (2005, "US") is re-listed from page 1
instead of being skipped. -/
theorem C1_resume_bug :
    ((mainRun envEmpty 5 (some (2005, "IN", 7))).st.calls.filter
        (isListingAt 2005 "IN")).head? = some (.listing 2005 "IN" 1 none)
    ∧ ((mainRun envEmpty 5 (some (2005, "IN", 7))).st.calls.filter
        (isListingAt 2005 "US")).head? = some (.listing 2005 "US" 1 none)
    ∧ ((mainRun envEmpty 5 (some (2005, "US", 7))).st.calls.filter
        (isListingAt 2005 "US")).head? = some (.listing 2005 "US" 8 none) := by
  refine ⟨rfl, rfl, rfl⟩

end TmdbFetch
